import Mathlib

/-!
Verification of the donut.rs terminal renderer (src/main.rs).

The per-frame geometry pipeline of `App::render_frame` is shallowly embedded
over the real numbers: every `f64` value of the source is modelled as a real
number, every Rust local (`cx`, `cy`, `x`, `y`, `z`, `ooz`, `xp`, `yp`, `l`,
`luminance_index`) becomes a Lean definition of the same name, and the `as
usize` saturating float-to-integer cast becomes `castUsize`.  Array indexing
into the fixed 30 x 30 `output`/`zbuffer` grids is modelled with an explicit
bounds guard whose failure is `Option.none` (a Rust index-out-of-bounds
panic); the grids themselves are total functions on naturals, only ever read
or written below the bounds.  The terminal collaborator of §6/§7 of the
design is modelled as a device function from terminal operations to an
optional error, and the `?`-propagation of `crossterm` I/O failures as an
`Except`-valued interpreter over the program's operation sequence.
-/

namespace Donut

/-! ## Constants (src/main.rs lines 7-23) -/

def SCREEN_WIDTH : ℕ := 30

def SCREEN_HEIGHT : ℕ := 30

noncomputable def THETA_SPACING : ℝ := 0.07

noncomputable def PHI_SPACING : ℝ := 0.02

noncomputable def R1 : ℝ := 1.0

noncomputable def R2 : ℝ := 2.0

noncomputable def K2 : ℝ := 5.0

noncomputable def K1 : ℝ := (SCREEN_WIDTH : ℝ) * K2 * 3.0 / (8.0 * (R1 + R2))

/-- Rust's `v as usize` on an `f64`: truncation toward zero, saturating at 0
for negative inputs (the source never produces values near `usize::MAX`, so
the upper saturation is irrelevant).  For `v ≥ 0` truncation agrees with the
floor; for `v < 0` the result is 0, which `Int.toNat` reproduces. -/
noncomputable def castUsize (v : ℝ) : ℕ := (⌊v⌋).toNat

/-! ## Per-sample geometry (src/main.rs lines 92-110) -/

/-- `let cx = R2 + R1 * cos_tetha` -/
noncomputable def cx (θ : ℝ) : ℝ := R2 + R1 * Real.cos θ

/-- `let cy = R1 * sin_tetha` -/
noncomputable def cy (θ : ℝ) : ℝ := R1 * Real.sin θ

/-- `let x = cx * (cos_b * cos_phi + sin_a * sin_b * sin_phi) - cy * cos_a * sin_b` -/
noncomputable def x (A B θ φ : ℝ) : ℝ :=
  cx θ * (Real.cos B * Real.cos φ + Real.sin A * Real.sin B * Real.sin φ)
    - cy θ * Real.cos A * Real.sin B

/-- `let y = cx * (sin_b * cos_phi - sin_a * cos_b * sin_phi) + cy * cos_a * cos_b` -/
noncomputable def y (A B θ φ : ℝ) : ℝ :=
  cx θ * (Real.sin B * Real.cos φ - Real.sin A * Real.cos B * Real.sin φ)
    + cy θ * Real.cos A * Real.cos B

/-- `let z = K2 + cos_a * cx * sin_phi + cy * sin_a` -/
noncomputable def z (A B θ φ : ℝ) : ℝ :=
  K2 + Real.cos A * cx θ * Real.sin φ + cy θ * Real.sin A

/-- `let ooz = 1.0 / z` -/
noncomputable def ooz (A B θ φ : ℝ) : ℝ := 1 / z A B θ φ

/-- `let xp = (SCREEN_WIDTH as f64 / 2.0 + K1 * ooz * x) as usize` -/
noncomputable def xp (A B θ φ : ℝ) : ℕ :=
  castUsize ((SCREEN_WIDTH : ℝ) / 2.0 + K1 * ooz A B θ φ * x A B θ φ)

/-- `let yp = (SCREEN_HEIGHT as f64 / 2.0 - K1 * ooz * y) as usize` -/
noncomputable def yp (A B θ φ : ℝ) : ℕ :=
  castUsize ((SCREEN_HEIGHT : ℝ) / 2.0 - K1 * ooz A B θ φ * y A B θ φ)

/-- The luminance `let l = cos_phi * cos_tetha * sin_b - cos_a * cos_tetha * sin_phi
- sin_a * sin_tetha + cos_b * (cos_a * sin_tetha - cos_tetha * sin_a * sin_phi)` -/
noncomputable def l (A B θ φ : ℝ) : ℝ :=
  Real.cos φ * Real.cos θ * Real.sin B - Real.cos A * Real.cos θ * Real.sin φ
    - Real.sin A * Real.sin θ
    + Real.cos B * (Real.cos A * Real.sin θ - Real.cos θ * Real.sin A * Real.sin φ)

/-! ## Luminance palette (src/main.rs lines 120-126) -/

/-- The twelve glyphs of `String::from(".,-~:;=!*#$@")`, darkest to brightest. -/
def palette : List Char := ".,-~:;=!*#$@".toList

/-- `let luminance_index = l * 8.0` combined with the `as usize` at its use site. -/
noncomputable def luminance_index (lum : ℝ) : ℕ := castUsize (lum * 8.0)

/-- `.chars().nth(luminance_index as usize)`: the optional palette glyph for a
luminance value; `none` means the source's `.unwrap()` would panic. -/
noncomputable def glyphOf (lum : ℝ) : Option Char := palette.get? (luminance_index lum)

/-! ## Range of the luminance scalar -/

theorem luminance_sq_le_two (A B θ φ : ℝ) : l A B θ φ ^ 2 ≤ 2 := by
  have hA := Real.sin_sq_add_cos_sq A
  have hB := Real.sin_sq_add_cos_sq B
  have hT := Real.sin_sq_add_cos_sq θ
  have hP := Real.sin_sq_add_cos_sq φ
  have e1 : l A B θ φ ^ 2
      + ((Real.cos φ * Real.sin B
            - Real.sin φ * (Real.cos A + Real.cos B * Real.sin A)) * Real.sin θ
          - (Real.cos A * Real.cos B - Real.sin A) * Real.cos θ) ^ 2
      = ((Real.cos φ * Real.sin B
            - Real.sin φ * (Real.cos A + Real.cos B * Real.sin A)) ^ 2
          + (Real.cos A * Real.cos B - Real.sin A) ^ 2)
        * (Real.sin θ ^ 2 + Real.cos θ ^ 2) := by
    simp only [l]; ring
  rw [hT, mul_one] at e1
  have e2 : (Real.cos φ * Real.sin B
        - Real.sin φ * (Real.cos A + Real.cos B * Real.sin A)) ^ 2
      + (Real.sin B * Real.sin φ
          + (Real.cos A + Real.cos B * Real.sin A) * Real.cos φ) ^ 2
      = (Real.sin B ^ 2 + (Real.cos A + Real.cos B * Real.sin A) ^ 2)
        * (Real.sin φ ^ 2 + Real.cos φ ^ 2) := by ring
  rw [hP, mul_one] at e2
  have e3 : (Real.cos A + Real.cos B * Real.sin A) ^ 2
      + (Real.cos A * Real.cos B - Real.sin A) ^ 2
      = (Real.sin A ^ 2 + Real.cos A ^ 2) * (1 + Real.cos B ^ 2) := by ring
  rw [hA, one_mul] at e3
  nlinarith [sq_nonneg ((Real.cos φ * Real.sin B
      - Real.sin φ * (Real.cos A + Real.cos B * Real.sin A)) * Real.sin θ
      - (Real.cos A * Real.cos B - Real.sin A) * Real.cos θ),
    sq_nonneg (Real.sin B * Real.sin φ
      + (Real.cos A + Real.cos B * Real.sin A) * Real.cos φ)]

theorem luminance_le_sqrt_two (A B θ φ : ℝ) : l A B θ φ ≤ Real.sqrt 2 := by
  nlinarith [luminance_sq_le_two A B θ φ, Real.sq_sqrt (show (0:ℝ) ≤ 2 by norm_num),
    Real.sqrt_nonneg 2]

/-- C4: for all angles θ, φ, A, B, the luminance scalar computed by the
closed-form expression of src/main.rs lines 108-110 lies in the interval
[-√2, +√2]. -/
theorem c4_luminance_range (A B θ φ : ℝ) :
    -Real.sqrt 2 ≤ l A B θ φ ∧ l A B θ φ ≤ Real.sqrt 2 := by
  refine ⟨?_, luminance_le_sqrt_two A B θ φ⟩
  nlinarith [luminance_sq_le_two A B θ φ, Real.sq_sqrt (show (0:ℝ) ≤ 2 by norm_num),
    Real.sqrt_nonneg 2]

/-! ## Depth bounds: the rotations are rigid, so the rotated point keeps the
norm of the pre-rotation circle point `(cx cos φ, cy, cx sin φ)`. -/

theorem rotation_norm (A B θ φ : ℝ) :
    x A B θ φ ^ 2 + y A B θ φ ^ 2 + (z A B θ φ - K2) ^ 2 = cx θ ^ 2 + cy θ ^ 2 := by
  have hA := Real.sin_sq_add_cos_sq A
  have hB := Real.sin_sq_add_cos_sq B
  have hP := Real.sin_sq_add_cos_sq φ
  have e1 : x A B θ φ ^ 2 + y A B θ φ ^ 2
      = ((cx θ * Real.cos φ) ^ 2
          + (cx θ * Real.sin φ * Real.sin A - cy θ * Real.cos A) ^ 2)
        * (Real.sin B ^ 2 + Real.cos B ^ 2) := by
    simp only [x, y]; ring
  rw [hB, mul_one] at e1
  have e2 : (cx θ * Real.sin φ * Real.sin A - cy θ * Real.cos A) ^ 2
      + (z A B θ φ - K2) ^ 2
      = ((cx θ * Real.sin φ) ^ 2 + cy θ ^ 2)
        * (Real.sin A ^ 2 + Real.cos A ^ 2) := by
    simp only [z]; ring
  rw [hA, mul_one] at e2
  have e3 : (cx θ * Real.cos φ) ^ 2 + (cx θ * Real.sin φ) ^ 2
      = cx θ ^ 2 * (Real.sin φ ^ 2 + Real.cos φ ^ 2) := by ring
  rw [hP, mul_one] at e3
  nlinarith [e1, e2, e3]

theorem circle_sq_le (θ : ℝ) : cx θ ^ 2 + cy θ ^ 2 ≤ 9 := by
  have hT := Real.sin_sq_add_cos_sq θ
  have hc := Real.cos_le_one θ
  simp only [cx, cy, R1, R2]
  nlinarith [hT, hc]

theorem z_pert_sq_le (A B θ φ : ℝ) : (z A B θ φ - K2) ^ 2 ≤ 9 := by
  nlinarith [rotation_norm A B θ φ, circle_sq_le θ, sq_nonneg (x A B θ φ),
    sq_nonneg (y A B θ φ)]

theorem two_le_z (A B θ φ : ℝ) : 2 ≤ z A B θ φ := by
  have h := z_pert_sq_le A B θ φ
  have hK : K2 = 5 := by norm_num [K2]
  rw [hK] at h
  nlinarith [sq_nonneg (z A B θ φ - 2)]

theorem ooz_pos (A B θ φ : ℝ) : 0 < ooz A B θ φ := by
  have h := two_le_z A B θ φ
  simp only [ooz]
  positivity

/-- C5: for all angles, the depth z of src/main.rs line 99 equals the viewer
offset K2 plus a perturbation of magnitude at most R1 + R2; with the
program's constants z is strictly positive, so ooz = 1/z is positive (and in
particular finite). -/
theorem c5_depth_positive (A B θ φ : ℝ) :
    |z A B θ φ - K2| ≤ R1 + R2 ∧ 0 < z A B θ φ ∧ 0 < ooz A B θ φ := by
  refine ⟨?_, lt_of_lt_of_le two_pos (two_le_z A B θ φ), ooz_pos A B θ φ⟩
  have h := z_pert_sq_le A B θ φ
  have hR : R1 + R2 = 3 := by norm_num [R1, R2]
  rw [hR, abs_le]
  constructor <;> nlinarith [h]

/-! ## Projection bounds: |x| ≤ (3/4)·z and |y| ≤ (3/4)·z, hence both screen
coordinates land inside the 30 x 30 grid for every sample of every frame. -/

theorem x_le_z (A B θ φ : ℝ) : 4 * |x A B θ φ| ≤ 3 * z A B θ φ := by
  have hn := rotation_norm A B θ φ
  have hc := circle_sq_le θ
  have hK : K2 = 5 := by norm_num [K2]
  rw [hK] at hn
  have hz := two_le_z A B θ φ
  have hsq : 16 * x A B θ φ ^ 2 ≤ 9 * z A B θ φ ^ 2 := by
    nlinarith [sq_nonneg (5 * z A B θ φ - 16), sq_nonneg (y A B θ φ)]
  nlinarith [sq_abs (x A B θ φ), abs_nonneg (x A B θ φ),
    sq_nonneg (4 * |x A B θ φ| - 3 * z A B θ φ)]

theorem y_le_z (A B θ φ : ℝ) : 4 * |y A B θ φ| ≤ 3 * z A B θ φ := by
  have hn := rotation_norm A B θ φ
  have hc := circle_sq_le θ
  have hK : K2 = 5 := by norm_num [K2]
  rw [hK] at hn
  have hz := two_le_z A B θ φ
  have hsq : 16 * y A B θ φ ^ 2 ≤ 9 * z A B θ φ ^ 2 := by
    nlinarith [sq_nonneg (5 * z A B θ φ - 16), sq_nonneg (x A B θ φ)]
  nlinarith [sq_abs (y A B θ φ), abs_nonneg (y A B θ φ),
    sq_nonneg (4 * |y A B θ φ| - 3 * z A B θ φ)]

theorem xp_le (A B θ φ : ℝ) : xp A B θ φ ≤ 29 := by
  have hz := two_le_z A B θ φ
  have hzpos : (0:ℝ) < z A B θ φ := by linarith
  have hx : x A B θ φ ≤ 3 / 4 * z A B θ φ := by
    have := x_le_z A B θ φ
    have := abs_le.mp (show |x A B θ φ| ≤ 3 / 4 * z A B θ φ by linarith)
    linarith [this.2]
  have hfl : (SCREEN_WIDTH : ℝ) / 2.0 + K1 * ooz A B θ φ * x A B θ φ < 30 := by
    have hW : (SCREEN_WIDTH : ℝ) = 30 := by norm_num [SCREEN_WIDTH]
    have hK1 : K1 = 18.75 := by norm_num [K1, K2, R1, R2, SCREEN_WIDTH]
    have hq : K1 * ooz A B θ φ * x A B θ φ = 18.75 * x A B θ φ / z A B θ φ := by
      rw [hK1]; simp only [ooz]; ring
    rw [hW, hq]
    have : 18.75 * x A B θ φ / z A B θ φ < 15 := by
      rw [div_lt_iff hzpos]
      nlinarith [hx, hz]
    norm_num
    linarith
  have hfloor : ⌊(SCREEN_WIDTH : ℝ) / 2.0 + K1 * ooz A B θ φ * x A B θ φ⌋ < 30 := by
    exact_mod_cast Int.floor_lt.mpr (by exact_mod_cast hfl)
  simp only [xp, castUsize]
  omega

theorem yp_le (A B θ φ : ℝ) : yp A B θ φ ≤ 29 := by
  have hz := two_le_z A B θ φ
  have hzpos : (0:ℝ) < z A B θ φ := by linarith
  have hy : -(3 / 4 * z A B θ φ) ≤ y A B θ φ := by
    have := y_le_z A B θ φ
    have := abs_le.mp (show |y A B θ φ| ≤ 3 / 4 * z A B θ φ by linarith)
    linarith [this.1]
  have hfl : (SCREEN_HEIGHT : ℝ) / 2.0 - K1 * ooz A B θ φ * y A B θ φ < 30 := by
    have hH : (SCREEN_HEIGHT : ℝ) = 30 := by norm_num [SCREEN_HEIGHT]
    have hK1 : K1 = 18.75 := by norm_num [K1, K2, R1, R2, SCREEN_WIDTH]
    have hq : K1 * ooz A B θ φ * y A B θ φ = 18.75 * y A B θ φ / z A B θ φ := by
      rw [hK1]; simp only [ooz]; ring
    rw [hH, hq]
    have : -15 < 18.75 * y A B θ φ / z A B θ φ := by
      rw [lt_div_iff hzpos]
      nlinarith [hy, hz]
    norm_num
    linarith
  have hfloor : ⌊(SCREEN_HEIGHT : ℝ) / 2.0 - K1 * ooz A B θ φ * y A B θ φ⌋ < 30 := by
    exact_mod_cast Int.floor_lt.mpr (by exact_mod_cast hfl)
  simp only [yp, castUsize]
  omega

/-! ## Glyph lookup -/

theorem sqrt_two_lt : Real.sqrt 2 < 1.5 := by
  nlinarith [Real.sq_sqrt (show (0:ℝ) ≤ 2 by norm_num), Real.sqrt_nonneg 2]

theorem one_le_sqrt_two : (1:ℝ) ≤ Real.sqrt 2 := by
  nlinarith [Real.sq_sqrt (show (0:ℝ) ≤ 2 by norm_num), Real.sqrt_nonneg 2]

theorem luminance_index_le {lum : ℝ} (h2 : lum ≤ Real.sqrt 2) :
    luminance_index lum ≤ 11 := by
  have h12 : lum * 8.0 < 12 := by nlinarith [sqrt_two_lt]
  have hfloor : ⌊lum * 8.0⌋ < 12 := Int.floor_lt.mpr (by exact_mod_cast h12)
  simp only [luminance_index, castUsize]
  omega

theorem glyphOf_eq_some {lum : ℝ} (h2 : lum ≤ Real.sqrt 2) :
    ∃ ch, glyphOf lum = some ch ∧ ch ∈ palette := by
  have h11 := luminance_index_le h2
  have hlen : luminance_index lum < palette.length := by
    have h : palette.length = 12 := by rfl
    omega
  exact ⟨palette.get ⟨luminance_index lum, hlen⟩, List.get?_eq_get hlen,
    List.get_mem palette _ hlen⟩

theorem palette_no_blank : ∀ c ∈ palette, c ≠ ' ' := by decide

/-- C3: whenever the luminance is positive (being at most √2 by its range),
the luminance index floor(L·8) of src/main.rs line 120 is a valid index in
[0, 11] of the 12-glyph palette, so the `.nth(..).unwrap()` of lines 123-126
never panics; index 0 is '.' and index 11 is '@' in the exact source order. -/
theorem c3_luminance_index_safe (A B θ φ : ℝ) (h : 0 < l A B θ φ) :
    luminance_index (l A B θ φ) ≤ 11 ∧ (glyphOf (l A B θ φ)).isSome = true ∧
      palette.get? 0 = some '.' ∧ palette.get? 11 = some '@' := by
  have h2 := luminance_le_sqrt_two A B θ φ
  obtain ⟨ch, hch, _⟩ := glyphOf_eq_some h2
  exact ⟨luminance_index_le h2, by rw [hch]; rfl, by decide, by decide⟩

theorem c3_witness :
    0 < l 0 (Real.pi / 2) 0 0 ∧
      (luminance_index (l 0 (Real.pi / 2) 0 0) ≤ 11 ∧
        (glyphOf (l 0 (Real.pi / 2) 0 0)).isSome = true ∧
        palette.get? 0 = some '.' ∧ palette.get? 11 = some '@') := by
  have h1 : l 0 (Real.pi / 2) 0 0 = 1 := by
    simp [l, Real.cos_pi_div_two, Real.sin_pi_div_two]
  have h0 : 0 < l 0 (Real.pi / 2) 0 0 := by rw [h1]; norm_num
  exact ⟨h0, c3_luminance_index_safe 0 (Real.pi / 2) 0 0 h0⟩

/-! ## The frame buffer and the per-sample write (src/main.rs lines 25-38,
57-60, 113-130).  The two 30 x 30 arrays are modelled as total functions on
naturals together with an explicit 30-bound guard at each indexing site;
`Option.none` stands for a Rust panic (index out of bounds, or a failing
`.unwrap()`). -/

structure FrameState where
  output : ℕ → ℕ → Char
  zbuffer : ℕ → ℕ → ℝ

/-- The state `App::new` builds: all blanks, all depths 0. -/
noncomputable def initialState : FrameState :=
  { output := fun _ _ => ' ', zbuffer := fun _ _ => 0 }

/-- `App::clear_state`: both grids are reset, whatever they held. -/
noncomputable def clear_state (_st : FrameState) : FrameState :=
  { output := fun _ _ => ' ', zbuffer := fun _ _ => 0 }

/-- Lines 113-130 of src/main.rs, for one sample whose projection, inverse
depth and luminance are already computed: if `l > 0`, index the z-buffer
(panicking when the coordinates are out of bounds — the source has no
bounds check), and on a strictly closer sample write the depth and the
looked-up glyph. -/
noncomputable def plot (st : FrameState) (yp0 xp0 : ℕ) (ooz0 lum : ℝ) :
    Option FrameState :=
  if 0 < lum then
    if yp0 < SCREEN_HEIGHT ∧ xp0 < SCREEN_WIDTH then
      if st.zbuffer yp0 xp0 < ooz0 then
        match glyphOf lum with
        | some ch =>
          some { zbuffer := fun i j => if i = yp0 ∧ j = xp0 then ooz0 else st.zbuffer i j,
                 output := fun i j => if i = yp0 ∧ j = xp0 then ch else st.output i j }
        | none => none
      else some st
    else none
  else some st

/-- One iteration of the inner φ-loop body of `render_frame`. -/
noncomputable def render_sample (A B : ℝ) (st : FrameState) (s : ℝ × ℝ) :
    Option FrameState :=
  plot st (yp A B s.1 s.2) (xp A B s.1 s.2) (ooz A B s.1 s.2) (l A B s.1 s.2)

/-- The sample sweep of `render_frame`, processing samples in loop order. -/
noncomputable def render_list (A B : ℝ) (st : FrameState) :
    List (ℝ × ℝ) → Option FrameState
  | [] => some st
  | s :: rest =>
    match render_sample A B st s with
    | some st' => render_list A B st' rest
    | none => none

/-- The θ-loop values: `theta` starts at 0 and gains `THETA_SPACING = 0.07`
while below 2π, so it takes the 90 values k·0.07 for k < 90
(89·0.07 = 6.23 < 2π ≤ 6.3 = 90·0.07, see `theta_loop_count`). -/
noncomputable def thetaValues : List ℝ :=
  (List.range 90).map fun k => (k : ℝ) * THETA_SPACING

/-- The φ-loop values: `phi` starts at 0 and gains `PHI_SPACING = 0.02` while
below 2π, so it takes the 315 values k·0.02 for k < 315
(314·0.02 = 6.28 < 2π ≤ 6.3 = 315·0.02, see `phi_loop_count`). -/
noncomputable def phiValues : List ℝ :=
  (List.range 315).map fun k => (k : ℝ) * PHI_SPACING

/-- All (θ, φ) samples of one frame, in loop order: θ outer, φ inner. -/
noncomputable def frameSamples : List (ℝ × ℝ) :=
  thetaValues.bind fun t => phiValues.map fun p => (t, p)

theorem theta_loop_count :
    (89 : ℝ) * THETA_SPACING < 2 * Real.pi ∧ 2 * Real.pi ≤ (90 : ℝ) * THETA_SPACING := by
  have h1 := Real.pi_gt_3141592
  have h2 := Real.pi_lt_315
  constructor <;> (simp only [THETA_SPACING]; norm_num) <;> linarith

theorem phi_loop_count :
    (314 : ℝ) * PHI_SPACING < 2 * Real.pi ∧ 2 * Real.pi ≤ (315 : ℝ) * PHI_SPACING := by
  have h1 := Real.pi_gt_3141592
  have h2 := Real.pi_lt_315
  constructor <;> (simp only [PHI_SPACING]; norm_num) <;> linarith

/-- Every sample write succeeds: the projection always lands inside the grid
and the glyph lookup always succeeds, so the modelled panics never fire. -/
theorem render_sample_some (A B : ℝ) (st : FrameState) (s : ℝ × ℝ) :
    ∃ st', render_sample A B st s = some st' := by
  unfold render_sample plot
  by_cases hl : 0 < l A B s.1 s.2
  · rw [if_pos hl, if_pos ⟨Nat.lt_of_le_of_lt (yp_le A B s.1 s.2) (by decide),
      Nat.lt_of_le_of_lt (xp_le A B s.1 s.2) (by decide)⟩]
    by_cases hooz : st.zbuffer (yp A B s.1 s.2) (xp A B s.1 s.2) < ooz A B s.1 s.2
    · rw [if_pos hooz]
      obtain ⟨ch, hch, _⟩ := glyphOf_eq_some (luminance_le_sqrt_two A B s.1 s.2)
      rw [hch]
      exact ⟨_, rfl⟩
    · rw [if_neg hooz]
      exact ⟨st, rfl⟩
  · rw [if_neg hl]
    exact ⟨st, rfl⟩

/-- C6: with the program's constants, the projected coordinates of every
sample satisfy xp ≤ 29 and yp ≤ 29 (they are naturals, so 0 ≤ xp, yp), hence
the unchecked `output[yp][xp]` / `zbuffer[yp][xp]` indexing of
src/main.rs lines 116-128 never goes out of bounds and the renderer never
panics, for any angles. -/
theorem c6_projection_in_bounds (A B θ φ : ℝ) :
    xp A B θ φ ≤ 29 ∧ yp A B θ φ ≤ 29 ∧
      ∀ st : FrameState, ∃ st', render_sample A B st (θ, φ) = some st' :=
  ⟨xp_le A B θ φ, yp_le A B θ φ, fun st => render_sample_some A B st (θ, φ)⟩

/-- C2 fails on the code as stated: there is no bounds check in
src/main.rs lines 104-129, so a sample projecting one row beyond the last
valid row (yp = 30) with positive luminance is not silently discarded
leaving the grids unchanged — the z-buffer indexing panics (modelled as
`none`). -/
theorem c2_counterexample : plot initialState 30 15 (1/4) 1 = none := by
  unfold plot
  rw [if_pos (by norm_num : (0:ℝ) < 1), if_neg]
  intro h
  exact absurd h.1 (by norm_num [SCREEN_HEIGHT])

/-- C2 amended: the code performs no bounds check; instead every sample's
projection is always in bounds (`c6_projection_in_bounds`).  A write at the
last valid row/column (29, 29) is included, while a coordinate one unit
beyond the last valid row or column would make the indexing panic (`none`)
rather than be silently discarded. -/
theorem c2_boundary_behavior (st : FrameState) (ooz0 lum : ℝ)
    (h0 : 0 < lum) (h2 : lum ≤ Real.sqrt 2) (hz : st.zbuffer 29 29 < ooz0) :
    (∃ st', plot st 29 29 ooz0 lum = some st' ∧ st'.output 29 29 ≠ ' ') ∧
      plot st 30 29 ooz0 lum = none ∧ plot st 29 30 ooz0 lum = none := by
  obtain ⟨ch, hch, hmem⟩ := glyphOf_eq_some h2
  refine ⟨⟨{ zbuffer := fun i j => if i = 29 ∧ j = 29 then ooz0 else st.zbuffer i j,
             output := fun i j => if i = 29 ∧ j = 29 then ch else st.output i j }, ?_, ?_⟩,
    ?_, ?_⟩
  · unfold plot
    rw [if_pos h0, if_pos (⟨by decide, by decide⟩ : (29:ℕ) < SCREEN_HEIGHT ∧ (29:ℕ) < SCREEN_WIDTH),
      if_pos hz, hch]
  · simp only [if_pos (⟨rfl, rfl⟩ : (29:ℕ) = 29 ∧ (29:ℕ) = 29)]
    exact palette_no_blank ch hmem
  · unfold plot
    rw [if_pos h0, if_neg]
    intro h
    exact absurd h.1 (by norm_num [SCREEN_HEIGHT])
  · unfold plot
    rw [if_pos h0, if_neg]
    intro h
    exact absurd h.2 (by norm_num [SCREEN_WIDTH])

theorem c2_boundary_witness :
    ((0:ℝ) < 1 ∧ (1:ℝ) ≤ Real.sqrt 2 ∧ initialState.zbuffer 29 29 < (1:ℝ)/4) ∧
      (∃ st', plot initialState 29 29 ((1:ℝ)/4) 1 = some st' ∧ st'.output 29 29 ≠ ' ') ∧
      plot initialState 30 29 ((1:ℝ)/4) 1 = none ∧
      plot initialState 29 30 ((1:ℝ)/4) 1 = none := by
  have hz : initialState.zbuffer 29 29 < (1:ℝ)/4 := by
    simp only [initialState]
    norm_num
  exact ⟨⟨by norm_num, one_le_sqrt_two, hz⟩,
    c2_boundary_behavior initialState (1/4) 1 (by norm_num) one_le_sqrt_two hz⟩

/-! ## The depth-buffer invariant -/

/-- The screen cell a sample maps to, as (row, column) = (yp, xp). -/
noncomputable def cellOf (A B : ℝ) (s : ℝ × ℝ) : ℕ × ℕ :=
  (yp A B s.1 s.2, xp A B s.1 s.2)

/-- The state of the two grids after the samples of `done` have been
processed from a cleared frame: at every cell, the stored depth dominates
the inverse depth of every lit (`l > 0`) sample that mapped there; a cell
some lit sample mapped to holds the glyph and the exact depth of one such
sample, and is non-blank; a cell no lit sample mapped to is untouched. -/
def Inv (A B : ℝ) (done : List (ℝ × ℝ)) (st : FrameState) : Prop :=
  ∀ i j : ℕ,
    (∀ s ∈ done, 0 < l A B s.1 s.2 → cellOf A B s = (i, j) →
        ooz A B s.1 s.2 ≤ st.zbuffer i j) ∧
    ((∃ s ∈ done, 0 < l A B s.1 s.2 ∧ cellOf A B s = (i, j)) →
        ∃ s ∈ done, 0 < l A B s.1 s.2 ∧ cellOf A B s = (i, j) ∧
          ooz A B s.1 s.2 = st.zbuffer i j ∧
          glyphOf (l A B s.1 s.2) = some (st.output i j) ∧ st.output i j ≠ ' ') ∧
    ((¬ ∃ s ∈ done, 0 < l A B s.1 s.2 ∧ cellOf A B s = (i, j)) →
        st.output i j = ' ' ∧ st.zbuffer i j = 0)

theorem inv_initial (A B : ℝ) : Inv A B [] initialState := by
  intro i j
  refine ⟨?_, ?_, ?_⟩
  · intro s hs
    exact absurd hs (List.not_mem_nil s)
  · rintro ⟨s, hs, -⟩
    exact absurd hs (List.not_mem_nil s)
  · intro _
    exact ⟨rfl, rfl⟩

theorem cellOf_eq {A B : ℝ} {s : ℝ × ℝ} {i j : ℕ} (h : cellOf A B s = (i, j)) :
    yp A B s.1 s.2 = i ∧ xp A B s.1 s.2 = j :=
  ⟨congrArg Prod.fst h, congrArg Prod.snd h⟩

theorem render_sample_inv (A B : ℝ) (done : List (ℝ × ℝ)) (st st' : FrameState)
    (s : ℝ × ℝ) (hst : render_sample A B st s = some st') (hinv : Inv A B done st) :
    Inv A B (done ++ [s]) st' := by
  unfold render_sample plot at hst
  by_cases hl : 0 < l A B s.1 s.2
  · rw [if_pos hl, if_pos ⟨Nat.lt_of_le_of_lt (yp_le A B s.1 s.2) (by decide),
      Nat.lt_of_le_of_lt (xp_le A B s.1 s.2) (by decide)⟩] at hst
    by_cases hooz : st.zbuffer (yp A B s.1 s.2) (xp A B s.1 s.2) < ooz A B s.1 s.2
    · -- the depth test passes: both grids are updated at the sample's cell
      rw [if_pos hooz] at hst
      obtain ⟨ch, hch, hmem⟩ := glyphOf_eq_some (luminance_le_sqrt_two A B s.1 s.2)
      rw [hch] at hst
      obtain rfl := (Option.some.inj hst).symm
      intro i j
      obtain ⟨h1, h2, h3⟩ := hinv i j
      by_cases hcell : i = yp A B s.1 s.2 ∧ j = xp A B s.1 s.2
      · refine ⟨?_, ?_, ?_⟩
        · intro s0 hs0 hlit0 hcell0
          dsimp only
          rw [if_pos hcell]
          rcases List.mem_append.mp hs0 with hd | hs1
          · have hb := h1 s0 hd hlit0 hcell0
            have hzb : st.zbuffer i j = st.zbuffer (yp A B s.1 s.2) (xp A B s.1 s.2) := by
              rw [hcell.1, hcell.2]
            rw [hzb] at hb
            linarith [hooz]
          · obtain rfl := List.mem_singleton.mp hs1
            exact le_refl _
        · intro _
          refine ⟨s, List.mem_append_right done (List.mem_singleton.mpr rfl), hl, ?_, ?_, ?_, ?_⟩
          · simp [cellOf, hcell.1, hcell.2]
          · dsimp only
            rw [if_pos hcell]
          · dsimp only
            rw [if_pos hcell, hch]
          · dsimp only
            rw [if_pos hcell]
            exact palette_no_blank ch hmem
        · intro hn
          exact absurd ⟨s, List.mem_append_right done (List.mem_singleton.mpr rfl), hl,
            by simp [cellOf, hcell.1, hcell.2]⟩ hn
      · have hnots : cellOf A B s ≠ (i, j) := fun hc =>
          hcell ⟨((cellOf_eq hc).1).symm, ((cellOf_eq hc).2).symm⟩
        refine ⟨?_, ?_, ?_⟩
        · intro s0 hs0 hlit0 hcell0
          dsimp only
          rw [if_neg hcell]
          rcases List.mem_append.mp hs0 with hd | hs1
          · exact h1 s0 hd hlit0 hcell0
          · obtain rfl := List.mem_singleton.mp hs1
            exact absurd hcell0 hnots
        · rintro ⟨s0, hs0, hlit0, hcell0⟩
          rcases List.mem_append.mp hs0 with hd | hs1
          · obtain ⟨s1, hs1, hlit1, hcell1, hooz1, hg1, hb1⟩ := h2 ⟨s0, hd, hlit0, hcell0⟩
            refine ⟨s1, List.mem_append_left _ hs1, hlit1, hcell1, ?_, ?_, ?_⟩
            · dsimp only
              rw [if_neg hcell]
              exact hooz1
            · dsimp only
              rw [if_neg hcell]
              exact hg1
            · dsimp only
              rw [if_neg hcell]
              exact hb1
          · obtain rfl := List.mem_singleton.mp hs1
            exact absurd hcell0 hnots
        · intro hn
          have hnd : ¬ ∃ s0 ∈ done, 0 < l A B s0.1 s0.2 ∧ cellOf A B s0 = (i, j) := by
            rintro ⟨s0, hd, hx⟩
            exact hn ⟨s0, List.mem_append_left _ hd, hx⟩
          obtain ⟨ho, hz⟩ := h3 hnd
          constructor
          · dsimp only
            rw [if_neg hcell]
            exact ho
          · dsimp only
            rw [if_neg hcell]
            exact hz
    · -- the depth test fails: the state is unchanged
      rw [if_neg hooz] at hst
      have hse : st' = st := (Option.some.inj hst).symm
      subst hse
      intro i j
      obtain ⟨h1, h2, h3⟩ := hinv i j
      refine ⟨?_, ?_, ?_⟩
      · intro s0 hs0 hlit0 hcell0
        rcases List.mem_append.mp hs0 with hd | hs1
        · exact h1 s0 hd hlit0 hcell0
        · obtain rfl := List.mem_singleton.mp hs1
          have hij := cellOf_eq hcell0
          rw [← hij.1, ← hij.2]
          exact not_lt.mp hooz
      · rintro ⟨s0, hs0, hlit0, hcell0⟩
        rcases List.mem_append.mp hs0 with hd | hs1
        · obtain ⟨s1, hs1, rest⟩ := h2 ⟨s0, hd, hlit0, hcell0⟩
          exact ⟨s1, List.mem_append_left _ hs1, rest⟩
        · obtain rfl := List.mem_singleton.mp hs1
          have hij := cellOf_eq hcell0
          have hdone : ∃ s1 ∈ done, 0 < l A B s1.1 s1.2 ∧ cellOf A B s1 = (i, j) := by
            by_contra hnd
            obtain ⟨-, hz0⟩ := h3 hnd
            have hle := not_lt.mp hooz
            rw [hij.1, hij.2, hz0] at hle
            exact absurd (ooz_pos A B s0.1 s0.2) (not_lt.mpr hle)
          obtain ⟨s1, hs1, rest⟩ := h2 hdone
          exact ⟨s1, List.mem_append_left _ hs1, rest⟩
      · intro hn
        refine h3 ?_
        rintro ⟨s0, hd, hx⟩
        exact hn ⟨s0, List.mem_append_left _ hd, hx⟩
  · -- back-facing sample (l ≤ 0): discarded, state unchanged
    rw [if_neg hl] at hst
    have hse : st' = st := (Option.some.inj hst).symm
    subst hse
    intro i j
    obtain ⟨h1, h2, h3⟩ := hinv i j
    refine ⟨?_, ?_, ?_⟩
    · intro s0 hs0 hlit0 hcell0
      rcases List.mem_append.mp hs0 with hd | hs1
      · exact h1 s0 hd hlit0 hcell0
      · obtain rfl := List.mem_singleton.mp hs1
        exact absurd hlit0 hl
    · rintro ⟨s0, hs0, hlit0, hcell0⟩
      rcases List.mem_append.mp hs0 with hd | hs1
      · obtain ⟨s1, hs1, rest⟩ := h2 ⟨s0, hd, hlit0, hcell0⟩
        exact ⟨s1, List.mem_append_left _ hs1, rest⟩
      · obtain rfl := List.mem_singleton.mp hs1
        exact absurd hlit0 hl
    · intro hn
      refine h3 ?_
      rintro ⟨s0, hd, hx⟩
      exact hn ⟨s0, List.mem_append_left _ hd, hx⟩

theorem render_list_inv (A B : ℝ) (samples : List (ℝ × ℝ)) :
    ∀ (done : List (ℝ × ℝ)) (st : FrameState), Inv A B done st →
      ∃ st', render_list A B st samples = some st' ∧ Inv A B (done ++ samples) st' := by
  induction samples with
  | nil =>
    intro done st hinv
    exact ⟨st, rfl, by simpa using hinv⟩
  | cons s rest ih =>
    intro done st hinv
    obtain ⟨st1, hst1⟩ := render_sample_some A B st s
    have hinv1 := render_sample_inv A B done st st1 s hst1 hinv
    obtain ⟨st', hst', hinv'⟩ := ih (done ++ [s]) st1 hinv1
    refine ⟨st', ?_, ?_⟩
    · unfold render_list
      rw [hst1]
      exact hst'
    · rw [List.append_assoc] at hinv'
      simpa using hinv'

/-- C1: during one frame with fixed (A, B), a glyph is written and the depth
updated only when the sample's inverse depth strictly exceeds the stored
depth (first conjunct); and after the whole sample sweep from the cleared
state, every cell holding a non-blank glyph stores the maximum ooz over all
samples with l > 0 that mapped to it, and its glyph is the one of a sample
attaining that maximum (second conjunct). -/
theorem c1_depth_buffer (A B : ℝ) :
    (∀ (st st' : FrameState) (s : ℝ × ℝ), render_sample A B st s = some st' → st' ≠ st →
        st.zbuffer (yp A B s.1 s.2) (xp A B s.1 s.2) < ooz A B s.1 s.2) ∧
      ∃ st', render_list A B initialState frameSamples = some st' ∧
        ∀ i j : ℕ, st'.output i j ≠ ' ' →
          (∀ s ∈ frameSamples, 0 < l A B s.1 s.2 → cellOf A B s = (i, j) →
              ooz A B s.1 s.2 ≤ st'.zbuffer i j) ∧
          ∃ s ∈ frameSamples, 0 < l A B s.1 s.2 ∧ cellOf A B s = (i, j) ∧
            ooz A B s.1 s.2 = st'.zbuffer i j ∧
            glyphOf (l A B s.1 s.2) = some (st'.output i j) := by
  constructor
  · intro st st' s hst hne
    unfold render_sample plot at hst
    by_cases hl : 0 < l A B s.1 s.2
    · rw [if_pos hl, if_pos ⟨Nat.lt_of_le_of_lt (yp_le A B s.1 s.2) (by decide),
        Nat.lt_of_le_of_lt (xp_le A B s.1 s.2) (by decide)⟩] at hst
      by_cases hooz : st.zbuffer (yp A B s.1 s.2) (xp A B s.1 s.2) < ooz A B s.1 s.2
      · exact hooz
      · rw [if_neg hooz] at hst
        exact absurd (Option.some.inj hst).symm hne
    · rw [if_neg hl] at hst
      exact absurd (Option.some.inj hst).symm hne
  · obtain ⟨st', hst', hinv'⟩ :=
      render_list_inv A B frameSamples [] initialState (inv_initial A B)
    rw [List.nil_append] at hinv'
    refine ⟨st', hst', ?_⟩
    intro i j hout
    obtain ⟨h1, h2, h3⟩ := hinv' i j
    have hex : ∃ s ∈ frameSamples, 0 < l A B s.1 s.2 ∧ cellOf A B s = (i, j) := by
      by_contra hn
      exact hout (h3 hn).1
    obtain ⟨s1, hs1, hlit1, hcell1, hooz1, hg1, -⟩ := h2 hex
    exact ⟨h1, s1, hs1, hlit1, hcell1, hooz1, hg1⟩

/-! ## Determinism of one tick's rendering (src/main.rs lines 49-50: the loop
body clears the frame-scoped grids and then runs the sample sweep). -/

/-- The per-frame pipeline as `run` executes it: `clear_state` then the
sample sweep of `render_frame`. -/
noncomputable def frame_pipeline (A B : ℝ) (st : FrameState) : Option FrameState :=
  render_list A B (clear_state st) frameSamples

/-- C8: rendering one frame is deterministic — for identical angles (A, B),
the pipeline (grid reset followed by the full sample sweep) yields identical
results, and in particular byte-identical character grids, regardless of any
previous state of the reused buffers. -/
theorem c8_determinism (A B : ℝ) (st₁ st₂ : FrameState) :
    frame_pipeline A B st₁ = frame_pipeline A B st₂ ∧
      Option.map FrameState.output (frame_pipeline A B st₁)
        = Option.map FrameState.output (frame_pipeline A B st₂) :=
  ⟨rfl, rfl⟩

/-! ## The animation driver (src/main.rs lines 40-55) -/

/-- One tick's angle advance: `a += 0.07; b += 0.03`. -/
noncomputable def tick (p : ℝ × ℝ) : ℝ × ℝ := (p.1 + 0.07, p.2 + 0.03)

/-- The angle pair used by tick number n: `let mut a = 1.0; let mut b = 1.0`,
then one `tick` after each frame (frame 0 is rendered with (1, 1), since
`render_frame(a, b)` runs before the increments). -/
noncomputable def angles : ℕ → ℝ × ℝ
  | 0 => (1.0, 1.0)
  | n + 1 => tick (angles n)

theorem angles_formula (n : ℕ) :
    angles n = (1 + 0.07 * (n : ℝ), 1 + 0.03 * (n : ℝ)) := by
  induction n with
  | zero =>
    have h : angles 0 = ((1.0 : ℝ), (1.0 : ℝ)) := rfl
    rw [h]
    norm_num
  | succ k ih =>
    have h : angles (k + 1) = tick (angles k) := rfl
    rw [h, ih]
    unfold tick
    simp only [Prod.mk.injEq]
    push_cast
    constructor <;> ring

/-- C9: the rotation angles start at A = B = 1.0 (not zero), the first frame
is rendered with (1, 1), and after n ticks the angles are 1 + 0.07·n and
1 + 0.03·n. -/
theorem c9_initial_angles :
    angles 0 = ((1:ℝ), (1:ℝ)) ∧
      ∀ n : ℕ, angles n = (1 + 0.07 * (n : ℝ), 1 + 0.03 * (n : ℝ)) :=
  ⟨by rw [angles_formula 0]; norm_num, angles_formula⟩

/-- C7 fails on the code as stated: because the angles start at 1.0, one
hundred ticks leave them at (8.0, 4.0), each a full unit away from the
claimed values 7.0 and 3.0 — far beyond floating-point tolerance. -/
theorem c7_counterexample :
    angles 100 = ((8:ℝ), (4:ℝ)) ∧ |(angles 100).1 - 7| = 1 ∧ |(angles 100).2 - 3| = 1 := by
  have h : angles 100 = ((8:ℝ), (4:ℝ)) := by
    rw [angles_formula 100]
    norm_num
  refine ⟨h, ?_, ?_⟩ <;> rw [h] <;> norm_num

/-- C7 amended: one hundred ticks increase A by exactly 0.07·100 = 7.0 and B
by exactly 0.03·100 = 3.0; added to the initial values (1.0, 1.0) this
leaves the angles at A = 8.0 and B = 4.0 (exact in the real-number model,
within floating-point tolerance in the f64 program). -/
theorem c7_hundred_ticks :
    (angles 100).1 = 1 + 0.07 * 100 ∧ (angles 100).2 = 1 + 0.03 * 100 ∧
      angles 100 = ((8:ℝ), (4:ℝ)) := by
  have h := angles_formula 100
  rw [h]
  norm_num

/-! ## The terminal collaborator and I/O failure propagation (src/main.rs
lines 62-68, 138-148, 152-160).  The computation between I/O calls is pure,
so a run of the program performs a deterministic sequence of terminal
operations; a device answers each operation with `none` (success) or
`some e` (an I/O error).  Every call in the source is followed by `?`, so
the first failing operation aborts the run and its error is returned — from
`clear_terminal`/`render_frame` through `run` to `main` — which `execOps`
reproduces.  The `loop` of `run` is unbounded; it is modelled by its first
n iterations (n arbitrary), per the testability note of the design's §9. -/

/-- The terminal operations the program performs, in source order:
`execute!(EnterAlternateScreen)`, `queue!(cursor::Hide)`, `flush()`, and the
`write!`/`writeln!` calls of the frame output. -/
inductive TermOp where
  | enterAlt : TermOp
  | hideCursor : TermOp
  | flush : TermOp
  | write : String → TermOp

/-- Run a list of terminal operations against a device: `?` semantics — the
first failure aborts everything after it and its error is returned
unchanged to the caller. -/
def execOps {ε : Type} (dev : TermOp → Option ε) : List TermOp → Except ε Unit
  | [] => Except.ok ()
  | op :: rest =>
    match dev op with
    | some e => Except.error e
    | none => execOps dev rest

/-- `App::clear_terminal`: enter the alternate screen, hide the cursor,
flush. -/
def clear_terminal_ops : List TermOp :=
  [TermOp.enterAlt, TermOp.hideCursor, TermOp.flush]

/-- The writes at the end of `render_frame` for a finished character grid:
`writeln!(self.buf, "\r\x1b[H")`, then each row's glyphs followed by a
newline, then `flush`. -/
def frame_ops (g : ℕ → ℕ → Char) : List TermOp :=
  TermOp.write "\r\x1b[H\n" ::
    ((List.range SCREEN_HEIGHT).bind fun i =>
      ((List.range SCREEN_WIDTH).map fun j => TermOp.write (String.singleton (g i j)))
        ++ [TermOp.write "\n"]) ++ [TermOp.flush]

/-- The character grid of frame n (the `none` fallback is unreachable: the
sweep never panics, `render_sample_some`). -/
noncomputable def gridAt (n : ℕ) : ℕ → ℕ → Char :=
  match render_list (angles n).1 (angles n).2 initialState frameSamples with
  | some st => st.output
  | none => fun _ _ => ' '

/-- The terminal-operation sequence of `main` = `App::run` over the first n
ticks: `clear_terminal` once, then each frame's output. -/
noncomputable def program_ops (n : ℕ) : List TermOp :=
  clear_terminal_ops ++ (List.range n).bind fun k => frame_ops (gridAt k)

/-- The `Result` that reaches the process entry point `main` when the
program runs n ticks against the device `dev`. -/
noncomputable def main_result {ε : Type} (dev : TermOp → Option ε) (n : ℕ) :
    Except ε Unit :=
  execOps dev (program_ops n)

theorem execOps_error_iff {ε : Type} (dev : TermOp → Option ε) (ops : List TermOp)
    (e : ε) :
    execOps dev ops = Except.error e ↔
      ∃ pre op post, ops = pre ++ op :: post ∧
        (∀ o ∈ pre, dev o = none) ∧ dev op = some e := by
  induction ops with
  | nil =>
    constructor
    · intro h
      exact absurd h (by simp [execOps])
    · rintro ⟨pre, op, post, heq, -, -⟩
      cases pre <;> simp at heq
  | cons o rest ih =>
    cases hdev : dev o with
    | some e0 =>
      simp only [execOps, hdev]
      constructor
      · intro h
        obtain rfl : e0 = e := by
          have := Except.error.inj h
          exact this
        exact ⟨[], o, rest, rfl, by intro o' ho'; exact absurd ho' (List.not_mem_nil o'),
          hdev⟩
      · rintro ⟨pre, op, post, heq, hpre, hop⟩
        cases pre with
        | nil =>
          obtain ⟨rfl, -⟩ : o = op ∧ rest = post := by
            simpa using heq
          rw [hdev] at hop
          rw [Option.some.inj hop]
        | cons p pre0 =>
          obtain ⟨rfl, -⟩ : o = p ∧ rest = pre0 ++ op :: post := by
            simpa using heq
          have := hpre o (List.mem_cons_self o pre0)
          rw [hdev] at this
          exact absurd this (by simp)
    | none =>
      simp only [execOps, hdev]
      rw [ih]
      constructor
      · rintro ⟨pre, op, post, heq, hpre, hop⟩
        refine ⟨o :: pre, op, post, by rw [heq]; rfl, ?_, hop⟩
        intro o' ho'
        rcases List.mem_cons.mp ho' with rfl | hmem
        · exact hdev
        · exact hpre o' hmem
      · rintro ⟨pre, op, post, heq, hpre, hop⟩
        cases pre with
        | nil =>
          obtain ⟨rfl, -⟩ : o = op ∧ rest = post := by
            simpa using heq
          rw [hdev] at hop
          exact absurd hop (by simp)
        | cons p pre0 =>
          obtain ⟨rfl, hrest⟩ : o = p ∧ rest = pre0 ++ op :: post := by
            simpa using heq
          exact ⟨pre0, op, post, hrest,
            fun o' ho' => hpre o' (List.mem_cons_of_mem o ho'), hop⟩

theorem execOps_ok_iff {ε : Type} (dev : TermOp → Option ε) (ops : List TermOp) :
    execOps dev ops = Except.ok () ↔ ∀ o ∈ ops, dev o = none := by
  induction ops with
  | nil =>
    simp [execOps]
  | cons o rest ih =>
    cases hdev : dev o with
    | some e0 =>
      simp only [execOps, hdev]
      constructor
      · intro h
        exact absurd h (by simp)
      · intro h
        have := h o (List.mem_cons_self o rest)
        rw [hdev] at this
        exact absurd this (by simp)
    | none =>
      simp only [execOps, hdev]
      rw [ih]
      constructor
      · intro h o' ho'
        rcases List.mem_cons.mp ho' with rfl | hmem
        · exact hdev
        · exact h o' hmem
      · intro h o' ho'
        exact h o' (List.mem_cons_of_mem o ho')

/-- C10: over any number of ticks, the `Result` reaching `main` is an error
exactly when the terminal device fails some operation the program reaches
first: every operation before it succeeded (each attempted once — no retry),
everything after it is never attempted (immediate propagation out of the
rendering loop, terminating the run), and the error arrives unchanged (no
recovery, no transient/fatal distinction); otherwise every operation
succeeded and the run is clean. -/
theorem c10_io_error_propagation {ε : Type} (dev : TermOp → Option ε) (n : ℕ) (e : ε) :
    (main_result dev n = Except.error e ↔
      ∃ pre op post, program_ops n = pre ++ op :: post ∧
        (∀ o ∈ pre, dev o = none) ∧ dev op = some e) ∧
    (main_result dev n = Except.ok () ↔ ∀ o ∈ program_ops n, dev o = none) :=
  ⟨execOps_error_iff dev (program_ops n) e, execOps_ok_iff dev (program_ops n)⟩

end Donut
